import Mathlib

/-!
Verification development for `generate_breakpad_symbols.py`.

The program is a sequential orchestrator of four external command-line tools
(`ldd`, `eu-unstrip`, `readelf`, `dump_syms`).  We embed it shallowly:

* external tools are oracles (`World`), mapping their inputs to the text they
  would print on stdout;
* the output directory tree is an explicit filesystem state (`FS`);
* Python exceptions (`IndexError` from an out-of-bounds subscript,
  `AttributeError` from calling `.group` on a failed `re.match`) are `none`
  results that the embedded control flow propagates, exactly as an uncaught
  exception aborts the Python run;
* the `while queue:` loop of `main` is embedded with an explicit fuel
  parameter; a theorem shows a concrete fuel bound that always suffices, which
  is the termination claim;
* Python string helpers (`rstrip`, `split(' ')`, `splitlines`, `os.path.join`,
  `os.path.dirname`, `os.path.basename`) are reimplemented character by
  character, and the three `re` patterns of the source are implemented by a
  greedy backtracking matcher specialised to each pattern, mirroring the
  leftmost-greedy semantics of Python `re.match`.
-/

/-- Python `str.startswith` (a plain prefix test). -/
def strStartsWith (s pre : String) : Bool := pre.data.isPrefixOf s.data

/-- Python `str.endswith` (a plain suffix test). -/
def strEndsWith (s suf : String) : Bool := suf.data.isSuffixOf s.data

/-- The ASCII characters stripped by Python `str.rstrip()` with no argument. -/
def pyIsSpace (c : Char) : Bool :=
  c == ' ' || c == '\t' || c == '\n' || c == '\r' || c == '\x0b' || c == '\x0c'

/-- Python `str.rstrip()` on a character list. -/
def pyRstrip (s : List Char) : List Char := (s.reverse.dropWhile pyIsSpace).reverse

/-- Python `str.split(' ')`: split at every single space, keeping empty fields
(so consecutive spaces yield empty strings, and the empty string yields one
empty field). -/
def splitOnSpace : List Char → List (List Char)
  | [] => [[]]
  | ' ' :: rest => [] :: splitOnSpace rest
  | c :: rest =>
      match splitOnSpace rest with
      | [] => [[c]]
      | h :: t => (c :: h) :: t

/-- Helper for `pySplitlines`: accumulate the current line (reversed). -/
def pySplitlinesAux : List Char → List Char → List (List Char)
  | [], acc => if acc.isEmpty then [] else [acc.reverse]
  | '\r' :: '\n' :: rest, acc => acc.reverse :: pySplitlinesAux rest []
  | '\n' :: rest, acc => acc.reverse :: pySplitlinesAux rest []
  | '\r' :: rest, acc => acc.reverse :: pySplitlinesAux rest []
  | c :: rest, acc => pySplitlinesAux rest (c :: acc)

/-- Python `str.splitlines()` for the line terminators the embedded tools can
emit (`\n`, `\r`, `\r\n`); no trailing empty line is produced. -/
def pySplitlines (s : List Char) : List (List Char) := pySplitlinesAux s []

/-- The space-separated fields of the `eu-unstrip` output line, after
`rstrip()` — the value of `GetCommandOutput(...).rstrip().split(' ')` at
line 53 of the source. -/
def unstripFields (out : String) : List String :=
  (splitOnSpace (pyRstrip out.data)).map String.mk

/-- Embedding of `GetDebugFile` (source lines 51-57), as a function of the
`eu-unstrip` tool output.  The outer `Option` models control flow: `none` is
the uncaught `IndexError` raised by `unstrip[3]` when fewer than four fields
exist; `some none` is Python `None` (the sentinel values `-` and `.` mean "no
debug info"); `some (some f)` is a returned debug-file path. -/
def GetDebugFile (out : String) : Option (Option String) :=
  match (unstripFields out).get? 3 with
  | none => none
  | some f => some (if f = "-" ∨ f = "." then none else some f)

/-- Python `os.path.basename` (POSIX): everything after the last `/`. -/
def basename (p : String) : String :=
  String.mk (p.data.reverse.takeWhile (fun c => c != '/')).reverse

/-- Python `os.path.dirname` (POSIX): the prefix up to and including the last
`/`, with trailing slashes stripped unless the prefix is all slashes; the
empty string when there is no `/`. -/
def dirname (p : String) : String :=
  let cs := p.data
  let i := cs.length - (cs.reverse.takeWhile (fun c => c != '/')).length
  let head := cs.take i
  if head ≠ [] ∧ ¬ head.all (fun c => c == '/') then
    String.mk (head.reverse.dropWhile (fun c => c == '/')).reverse
  else
    String.mk head

/-- Drop an exact literal prefix, failing when it is not there. -/
def prefixDrop : List Char → List Char → Option (List Char)
  | [], s => some s
  | _ :: _, [] => none
  | l :: ls, c :: cs => if c = l then prefixDrop ls cs else none

/-- All ways a `p*` (or `p+`, when `requireOne` is set) regex atom can consume
a prefix of `s`, as `(consumed, rest)` pairs in the greedy order Python `re`
tries them: longest first, backtracking to shorter ones. -/
def greedySplits (p : Char → Bool) (requireOne : Bool) (s : List Char) :
    List (List Char × List Char) :=
  let maxN := (s.takeWhile p).length
  let lo := if requireOne then 1 else 0
  ((List.range (maxN + 1)).reverse.filter (fun n => lo ≤ n)).map
    (fun n => (s.take n, s.drop n))

/-- The character class `[\w.]` of the SONAME pattern (ASCII reading of
Python `\w`). -/
def isWordDot (c : Char) : Bool := c.isAlphanum || c == '_' || c == '.'

/-- Python `re.match` of the pattern
`.*\(SONAME\) *Library soname: \[([\w.]+)\]` (source line 70) against one
line, returning the group: a backtracking matcher trying candidates in the
same greedy order as `re`.  `.` never matches a newline. -/
def sonameMatch (line : List Char) : Option String :=
  (greedySplits (fun c => c != '\n') false line).findSome? fun a1 =>
    match prefixDrop "(SONAME)".data a1.2 with
    | none => none
    | some s2 =>
        (greedySplits (fun c => c == ' ') false s2).findSome? fun a2 =>
          match prefixDrop "Library soname: [".data a2.2 with
          | none => none
          | some s3 =>
              (greedySplits isWordDot true s3).findSome? fun a3 =>
                match a3.2 with
                | ']' :: _ => some (String.mk a3.1)
                | _ => none

/-- Embedding of `GetSoName` (source lines 59-75) as a function of the
`readelf -d` output and the binary path: the first line with a SONAME entry
wins, else the binary's base name. -/
def GetSoName (readelfOut : String) (binary : String) : String :=
  match (pySplitlines readelfOut.data).findSome? sonameMatch with
  | some name => name
  | none => basename binary

/-- The debug file actually used by `GenerateSymbols` (source lines 91-92):
a debug file reported by `eu-unstrip` is used only when `os.path.exists` says
it is on disk (`pathExists` is the disk oracle). -/
def usableDebugFile (pathExists : String → Bool) (dbgOpt : Option String) :
    Option String :=
  match dbgOpt with
  | some f => if pathExists f then some f else none
  | none => none

/-- The debug-directory hint passed to `dump_syms` — the spec operation
`locate_debug_info`, i.e. the composition of `GetDebugFile` (source lines
51-57) with the existence check and `os.path.dirname` of source lines 91-94.
The outer `Option` again models the potential uncaught `IndexError`. -/
def debugHintDir (pathExists : String → Bool) (unstripOut : String) :
    Option (Option String) :=
  (GetDebugFile unstripOut).map
    (fun dbgOpt => (usableDebugFile pathExists dbgOpt).map dirname)

/-- Python `re.match` of the `ldd` line pattern `^\t.* => (.+) \(.*\)$`
(source line 43) against one line, returning the captured path. -/
def lddLineMatch (line : List Char) : Option String :=
  match prefixDrop ['\t'] line with
  | none => none
  | some s1 =>
      (greedySplits (fun c => c != '\n') false s1).findSome? fun a1 =>
        match prefixDrop " => ".data a1.2 with
        | none => none
        | some s2 =>
            (greedySplits (fun c => c != '\n') true s2).findSome? fun a2 =>
              match prefixDrop " (".data a2.2 with
              | none => none
              | some s3 =>
                  (greedySplits (fun c => c != '\n') false s3).findSome? fun a3 =>
                    match a3.2 with
                    | [')'] => some (String.mk a2.1)
                    | _ => none

/-- Embedding of `GetSharedLibraryDependencies` (source lines 40-49) as a
function of the `ldd` output: the captured paths of all matching lines. -/
def GetSharedLibraryDependencies (lddOut : String) : List String :=
  (pySplitlines lddOut.data).filterMap lddLineMatch

/-- The dependency graph edge: `b` is listed among the dependencies of `a`. -/
def DepEdge (D : String → List String) (a b : String) : Prop := b ∈ D a

/-- Transitive reachability along dependency edges (reflexive, so every
binary reaches itself). -/
def DepReaches (D : String → List String) : String → String → Prop :=
  Relation.ReflTransGen (DepEdge D)

/-- Source line 126, `new_deps = set(deps) - binaries`: the dependencies of
`b` not already collected, deduplicated (Python builds a set; we keep first
occurrences, the iteration order of `list(new_deps)` being unspecified). -/
def newDeps (D : String → List String) (binaries : Finset String)
    (b : String) : List String :=
  ((D b).dedup).filter (fun d => !(decide (d ∈ binaries)))

/-- The `while queue:` loop of `main` (source lines 121-128), with an explicit
fuel bound standing in for the termination argument.  State: `binaries` is the
result set, the list is the work queue; `queue.pop(0)` takes the head and
`queue.extend(list(new_deps))` appends.  The result carries the final value of
`binaries`, the final value of the queue list (the loop exits when it is
empty, and — line 123 aliasing `queue = args.binaries` — this is also the
final value of `args.binaries`), and the trace of binaries popped and handed
to `ldd`, in order. -/
def closureLoopF (D : String → List String) :
    Nat → Finset String → List String →
      Option (Finset String × List String × List String)
  | _, binaries, [] => some (binaries, [], [])
  | 0, _, _ :: _ => none
  | fuel + 1, binaries, b :: rest =>
      match closureLoopF D fuel (binaries ∪ (newDeps D binaries b).toFinset)
          (rest ++ newDeps D binaries b) with
      | none => none
      | some (S, q, tr) => some (S, q, b :: tr)

/-- The final value of the list object that both `queue` and `args.binaries`
name.  Source line 123 reads `queue = args.binaries`: this binds a second name
to the caller's list, it does not copy it, so the loop's `queue.pop(0)` and
`queue.extend(...)` mutate `args.binaries` in place and its final value is the
final (empty) queue. -/
def argsBinariesAfterLoop (D : String → List String) (fuel : Nat)
    (roots : List String) : Option (List String) :=
  (closureLoopF D fuel roots.toFinset roots).map (fun r => r.2.1)

/-- The character class `[0-9A-F]` of the MODULE pattern. -/
def isUpperHex (c : Char) : Bool :=
  c.isDigit || (decide ('A' ≤ c) && decide (c ≤ 'F'))

/-- Python `re.match` of `^MODULE [^ ]+ [^ ]+ ([0-9A-F]+) (.*)\n` (source
line 97) against the whole `dump_syms` output, returning
`(build id, module name)` — groups 1 and 2. -/
def matchModuleLine (s : List Char) : Option (String × String) :=
  match prefixDrop "MODULE ".data s with
  | none => none
  | some s1 =>
      (greedySplits (fun c => c != ' ') true s1).findSome? fun a1 =>
        match prefixDrop [' '] a1.2 with
        | none => none
        | some s2 =>
            (greedySplits (fun c => c != ' ') true s2).findSome? fun a2 =>
              match prefixDrop [' '] a2.2 with
              | none => none
              | some s3 =>
                  (greedySplits isUpperHex true s3).findSome? fun a3 =>
                    match prefixDrop [' '] a3.2 with
                    | none => none
                    | some s4 =>
                        (greedySplits (fun c => c != '\n') false s4).findSome?
                          fun a4 =>
                            match a4.2 with
                            | '\n' :: _ =>
                                some (String.mk a3.1, String.mk a4.1)
                            | _ => none

/-- The output directory tree as state: which directories exist and what each
file contains. -/
@[ext] structure FS where
  dirs : String → Bool
  files : String → Option String

/-- Python `os.path.join` for two POSIX components (the three-argument calls
in the source fold this left to right). -/
def pathJoin (a b : String) : String :=
  if strStartsWith b "/" then b
  else if a = "" ∨ strEndsWith a "/" then a ++ b
  else a ++ "/" ++ b

/-- Python `os.makedirs(p, exist_ok=True)`: mark `p` and every ancestor
component prefix as an existing directory; never an error, in particular not
when the directory already exists. -/
def makedirs (p : String) (fs : FS) : FS :=
  { fs with dirs := fun d => fs.dirs d || d == p || strStartsWith p (d ++ "/") }

/-- Writing a file with `open(..., 'w')`: create or overwrite. -/
def fsWrite (p c : String) (fs : FS) : FS :=
  { fs with files := fun q => if q == p then some c else fs.files q }

/-- Whether path `p` is the directory `d` itself or lies underneath it. -/
def underDir (d p : String) : Bool := p == d || strStartsWith p (d ++ "/")

/-- Python `shutil.rmtree(d, ignore_errors=True)`: delete everything at or
under `d`; total, so a missing tree is silently ignored. -/
def rmtree (d : String) (fs : FS) : FS :=
  { dirs := fun q => fs.dirs q && !(underDir d q),
    files := fun q => if underDir d q then none else fs.files q }

/-- The parse-and-write tail of `GenerateSymbols` (source lines 96-104): match
the MODULE header of the captured `dump_syms` output `syms`, build
`symbol_dir/<module name>/<build id>` with `os.makedirs(..., exist_ok=True)`,
and write the whole of `syms` to `<module name>.sym` inside it.  `none` is the
uncaught `AttributeError` when the header does not match (claim C7); nothing
is written in that case. -/
def writeSyms (symbolDir syms : String) (fs : FS) :
    Option (FS × String × String) :=
  match matchModuleLine syms.data with
  | none => none
  | some (buildId, modName) =>
      let outputPath := pathJoin (pathJoin symbolDir modName) buildId
      let fs1 := makedirs outputPath fs
      let symbolFile := modName ++ ".sym"
      some (fsWrite (pathJoin outputPath symbolFile) syms fs1, buildId, modName)

/-- The external tools as oracles: what each prints to stdout for a given
invocation, plus the `os.path.exists` disk oracle. -/
structure World where
  ldd : String → String
  unstrip : String → String
  readelf : String → String
  dumpSyms : List String → String
  pathExists : String → Bool

/-- The `dump_syms` command line built by `GenerateSymbols` (source lines
79-94): verbosity flag, then `-n <soname>` when the SONAME differs from the
base name, then the binary (options before positional arguments), then the
debug directory hint when a usable debug file was found. -/
def dumpCmdFor (soname binary : String) (dbgUse : Option String) :
    List String :=
  ((if soname = basename binary then ["dump_syms", "-v"]
    else ["dump_syms", "-v", "-n", soname]) ++ [binary]) ++
    (match dbgUse with
     | some f => [dirname f]
     | none => [])

/-- The outcome of one `GenerateSymbols` call: the new filesystem (`none`
when an uncaught exception aborted before anything was written), the external
commands spawned, and the console lines printed. -/
structure GenResult where
  newFs : Option FS
  spawned : List (List String)
  console : List String

/-- Embedding of `GenerateSymbols` (source lines 77-104).  Both failure
points — the `IndexError` inside `GetDebugFile` and the failed MODULE-header
match — occur before `os.makedirs`/`open`, so a failing call leaves the
filesystem untouched.  The module-identity print of source line 99 happens
between the match and the write; it is kept with the console output since it
does not touch the filesystem. -/
def GenerateSymbols (w : World) (symbolDir binary : String) (fs : FS) :
    GenResult :=
  let readelfCmd := ["readelf", "-d", binary]
  let unstripCmd := ["eu-unstrip", "-n", "-e", binary]
  let soname := GetSoName (w.readelf binary) binary
  let printsSo := if soname = basename binary then []
    else ["different soname: " ++ soname]
  match GetDebugFile (w.unstrip binary) with
  | none => ⟨none, [readelfCmd, unstripCmd], printsSo⟩
  | some dbgOpt =>
      let dbgUse := usableDebugFile w.pathExists dbgOpt
      let printsDbg := match dbgUse with
        | some f => ["debug_file: " ++ f]
        | none => []
      let dumpCmd := dumpCmdFor soname binary dbgUse
      let syms := w.dumpSyms dumpCmd
      match writeSyms symbolDir syms fs with
      | none => ⟨none, [readelfCmd, unstripCmd, dumpCmd],
          printsSo ++ printsDbg⟩
      | some (fs2, buildId, modName) =>
          ⟨some fs2, [readelfCmd, unstripCmd, dumpCmd],
            printsSo ++ printsDbg ++
              (if soname = basename binary then []
               else [modName ++ " " ++ buildId])⟩

/-- The state after the per-binary loop of `main` (source lines 129-132):
final filesystem, whether every binary was processed without an uncaught
exception, spawned commands, and console output. -/
structure StepResult where
  fs : FS
  ok : Bool
  spawned : List (List String)
  console : List String

/-- The `for binary in binaries:` loop of `main`: process each binary in
order, stopping at the first uncaught exception. -/
def runBinaries (w : World) (symbolDir : String) :
    List String → FS → StepResult
  | [], fs => ⟨fs, true, [], []⟩
  | b :: rest, fs =>
      let g := GenerateSymbols w symbolDir b fs
      match g.newFs with
      | none => ⟨fs, false, g.spawned, ("binary: " ++ b) :: g.console⟩
      | some fs1 =>
          let r := runBinaries w symbolDir rest fs1
          ⟨r.fs, r.ok, g.spawned ++ r.spawned,
            ("binary: " ++ b) :: (g.console ++ [""] ++ r.console)⟩

/-- The filesystem as the writer phase first sees it (source lines 118-119):
`--clear` removes the whole symbols tree first, otherwise nothing happens. -/
def fsAfterSetup (clear : Bool) (symbolsDir : String) (fs : FS) : FS :=
  if clear then rmtree symbolsDir fs else fs

/-- The outcome of a whole run of `main`: `exitCode = some c` is a clean
`return c`, `exitCode = none` an uncaught exception (a non-zero, unspecified
process status). -/
structure MainResult where
  exitCode : Option Int
  fs : FS
  spawned : List (List String)
  console : List String

/-- Embedding of `main` (source lines 106-133): platform gate, optional
`--clear`, dependency closure, then one `GenerateSymbols` per collected
binary.  The outer `Option` is `none` only when the closure fuel runs out (a
model artefact; `closureLoopF_terminates` gives a sufficient fuel).  The
iteration order over the Python set `binaries` is unspecified; the model
enumerates the `Finset` in sorted order. -/
def pyMain (platform : String) (w : World) (clear : Bool)
    (symbolsDir : String) (rootBinaries : List String) (fuel : Nat)
    (fs : FS) : Option MainResult :=
  if !(strStartsWith platform "linux") then
    some ⟨some 1, fs, [], ["Currently only supported on Linux."]⟩
  else
    let fs1 := fsAfterSetup clear symbolsDir fs
    match closureLoopF (fun b => GetSharedLibraryDependencies (w.ldd b)) fuel
        rootBinaries.toFinset rootBinaries with
    | none => none
    | some (binaries, _, processed) =>
        let r := runBinaries w symbolsDir (binaries.sort (· ≤ ·)) fs1
        some ⟨if r.ok then some 0 else none, r.fs,
          processed.map (fun b => ["ldd", b]) ++ r.spawned, r.console⟩

/-- Helper: a `findSome?` that succeeds does so on some member of the list. -/
theorem findSome_mem {α β : Type} (f : α → Option β) :
    ∀ (l : List α) (b : β), l.findSome? f = some b → ∃ a ∈ l, f a = some b := by
  intro l
  induction l with
  | nil => intro b h; simp [List.findSome?] at h
  | cons a t ih =>
      intro b h
      rw [List.findSome?] at h
      cases hf : f a with
      | none => rw [hf] at h; obtain ⟨x, hx, hfx⟩ := ih b h
                exact ⟨x, List.mem_cons_of_mem a hx, hfx⟩
      | some v => rw [hf] at h; cases h; exact ⟨a, List.mem_cons_self a t, hf⟩

/-- Helper: `findSome?` returns `none` exactly when `f` fails on every member. -/
theorem findSome_eq_none {α β : Type} (f : α → Option β) :
    ∀ l : List α, l.findSome? f = none ↔ ∀ a ∈ l, f a = none := by
  intro l
  induction l with
  | nil => simp [List.findSome?]
  | cons a t ih =>
      rw [List.findSome?]
      cases hf : f a with
      | none => simp [hf, ih]
      | some v => simp [hf]

/-- Helper: if `f` succeeds somewhere in the list and every success yields the
same value `x`, then `findSome?` returns `x`. -/
theorem findSome_unique {α β : Type} (f : α → Option β) (x : β) :
    ∀ l : List α, (∃ a ∈ l, f a = some x) →
      (∀ a ∈ l, ∀ y, f a = some y → y = x) → l.findSome? f = some x := by
  intro l
  induction l with
  | nil => rintro ⟨a, ha, _⟩ _; simp at ha
  | cons a t ih =>
      rintro ⟨w, hw, hfw⟩ huniq
      rw [List.findSome?]
      cases hf : f a with
      | none =>
          rcases List.mem_cons.mp hw with rfl | hwt
          · rw [hf] at hfw; cases hfw
          · exact ih ⟨w, hwt, hfw⟩
              (fun a ha y hy => huniq a (List.mem_cons_of_mem _ ha) y hy)
      | some v =>
          rw [huniq a (List.mem_cons_self a t) v hf]

/-- Claim C4: `GetSoName` returns the SONAME `X` whenever some line of the
dump is a well-formed SONAME entry naming `X` (and no line names anything
else), and returns the binary path's base name when no line is a well-formed
SONAME entry. -/
theorem getSoName_spec (readelfOut binary : String) :
    (∀ X, (∃ line ∈ pySplitlines readelfOut.data, sonameMatch line = some X) →
      (∀ line ∈ pySplitlines readelfOut.data, ∀ Y,
          sonameMatch line = some Y → Y = X) →
      GetSoName readelfOut binary = X) ∧
    ((∀ line ∈ pySplitlines readelfOut.data, sonameMatch line = none) →
      GetSoName readelfOut binary = basename binary) := by
  constructor
  · intro X hex huniq
    unfold GetSoName
    rw [findSome_unique sonameMatch X _ hex huniq]
  · intro hnone
    unfold GetSoName
    rw [(findSome_eq_none sonameMatch _).mpr hnone]

/-- Witness for C4: a two-line `readelf -d` style dump with one SONAME entry
yields the advertised name, and a dump with none yields the base name. -/
theorem getSoName_spec_witness :
    (∃ line ∈ pySplitlines
        ("0x01 (NEEDED) Shared library: [libc.so.6]\n0x0e (SONAME)   Library soname: [libgallium_dri.so]\n").data,
      sonameMatch line = some "libgallium_dri.so") ∧
    GetSoName
        "0x01 (NEEDED) Shared library: [libc.so.6]\n0x0e (SONAME)   Library soname: [libgallium_dri.so]\n"
        "/usr/lib/dri/radeonsi_dri.so" = "libgallium_dri.so" ∧
    GetSoName "0x01 (NEEDED) Shared library: [libc.so.6]\n"
        "/usr/lib/dri/radeonsi_dri.so" = "radeonsi_dri.so" := by
  refine ⟨by decide, ?_, ?_⟩
  · exact (getSoName_spec _ _).1 "libgallium_dri.so" (by decide) (by decide)
  · exact (getSoName_spec _ _).2 (by decide)

/-- Claim C5: the debug hint is the directory containing the debug file
(`dirname`, not the file itself) and is produced only when that file exists on
disk; when the file does not exist, or the sentinel said there is no debug
info, no hint is produced. -/
theorem debugHintDir_spec (pathExists : String → Bool) (out : String) :
    (∀ d, debugHintDir pathExists out = some (some d) →
        ∃ f, GetDebugFile out = some (some f) ∧ pathExists f = true ∧
          d = dirname f) ∧
    (∀ f, GetDebugFile out = some (some f) → pathExists f = false →
        debugHintDir pathExists out = some none) ∧
    (GetDebugFile out = some none → debugHintDir pathExists out = some none) := by
  refine ⟨?_, ?_, ?_⟩
  · intro d hd
    cases hg : GetDebugFile out with
    | none => simp [debugHintDir, hg] at hd
    | some dbgOpt =>
        cases dbgOpt with
        | none => simp [debugHintDir, hg, usableDebugFile] at hd
        | some f =>
            by_cases hex : pathExists f = true
            · refine ⟨f, rfl, hex, ?_⟩
              simp [debugHintDir, hg, usableDebugFile, hex] at hd
              exact hd.symm
            · simp [debugHintDir, hg, usableDebugFile] at hd
              exact absurd hd.1 hex
  · intro f hf hex
    unfold debugHintDir
    rw [hf]
    simp [usableDebugFile, hex]
  · intro hf
    unfold debugHintDir
    rw [hf]
    simp [usableDebugFile]

/-- Witness for C5: with a debug file `/usr/lib/debug/x.so` that exists on
disk, the hint is its directory `/usr/lib/debug`; with the same file absent
from disk, no hint is produced. -/
theorem debugHintDir_spec_witness :
    debugHintDir (fun p => p == "/usr/lib/debug/x.so")
        "0x1+0x2 ab12 . /usr/lib/debug/x.so libx" =
      some (some "/usr/lib/debug") ∧
    (∃ f, GetDebugFile "0x1+0x2 ab12 . /usr/lib/debug/x.so libx" =
        some (some f) ∧
        (fun p => p == "/usr/lib/debug/x.so") f = true ∧
        "/usr/lib/debug" = dirname f) ∧
    debugHintDir (fun _ => false)
        "0x1+0x2 ab12 . /usr/lib/debug/x.so libx" = some none := by
  refine ⟨by decide, ?_, ?_⟩
  · exact (debugHintDir_spec (fun p => p == "/usr/lib/debug/x.so")
      "0x1+0x2 ab12 . /usr/lib/debug/x.so libx").1 "/usr/lib/debug" (by decide)
  · exact (debugHintDir_spec (fun _ => false)
      "0x1+0x2 ab12 . /usr/lib/debug/x.so libx").2.1
      "/usr/lib/debug/x.so" (by decide) rfl

theorem mem_newDeps {D : String → List String} {binaries : Finset String}
    {b d : String} :
    d ∈ newDeps D binaries b ↔ d ∈ D b ∧ d ∉ binaries := by
  simp [newDeps]

theorem newDeps_nodup (D : String → List String) (binaries : Finset String)
    (b : String) : (newDeps D binaries b).Nodup :=
  (List.nodup_dedup (D b)).filter _

theorem closureLoopF_nil (D : String → List String) (fuel : Nat)
    (B : Finset String) : closureLoopF D fuel B [] = some (B, [], []) := by
  cases fuel <;> rfl

theorem closureLoopF_succ_cons (D : String → List String) (fuel : Nat)
    (B : Finset String) (b : String) (rest : List String) :
    closureLoopF D (fuel + 1) B (b :: rest) =
      match closureLoopF D fuel (B ∪ (newDeps D B b).toFinset)
          (rest ++ newDeps D B b) with
      | none => none
      | some (S, q, tr) => some (S, q, b :: tr) := rfl

/-- The loop only ever exits with an empty queue. -/
theorem closureLoopF_queue_empty (D : String → List String) :
    ∀ (fuel : Nat) (B : Finset String) (Q : List String) r,
      closureLoopF D fuel B Q = some r → r.2.1 = [] := by
  intro fuel
  induction fuel with
  | zero =>
      intro B Q r h
      cases Q with
      | nil => rw [closureLoopF_nil] at h; cases h; rfl
      | cons b rest => cases h
  | succ n ih =>
      intro B Q r h
      cases Q with
      | nil => rw [closureLoopF_nil] at h; cases h; rfl
      | cons b rest =>
          rw [closureLoopF_succ_cons] at h
          cases hrec : closureLoopF D n (B ∪ (newDeps D B b).toFinset)
              (rest ++ newDeps D B b) with
          | none => rw [hrec] at h; cases h
          | some r2 =>
              rw [hrec] at h
              obtain ⟨S, q, tr⟩ := r2
              cases h
              exact ih _ _ (S, q, tr) hrec

/-- Termination: fuel `(U \ B).card + Q.length` suffices whenever all
dependencies stay inside the finite universe `U`. -/
theorem closureLoopF_terminates (D : String → List String) (U : Finset String)
    (hD : ∀ b ∈ U, ∀ d ∈ D b, d ∈ U) :
    ∀ (fuel : Nat) (B : Finset String) (Q : List String),
      B ⊆ U → (∀ x ∈ Q, x ∈ B) → (U \ B).card + Q.length ≤ fuel →
      ∃ r, closureLoopF D fuel B Q = some r := by
  intro fuel
  induction fuel with
  | zero =>
      intro B Q hB hQ hle
      cases Q with
      | nil => exact ⟨_, closureLoopF_nil D 0 B⟩
      | cons b rest => simp only [List.length_cons] at hle; omega
  | succ n ih =>
      intro B Q hB hQ hle
      cases Q with
      | nil => exact ⟨_, closureLoopF_nil D _ B⟩
      | cons b rest =>
          have hbU : b ∈ U := hB (hQ b (List.mem_cons_self b rest))
          have hsub : (newDeps D B b).toFinset ⊆ U \ B := by
            intro d hd
            rw [List.mem_toFinset] at hd
            exact Finset.mem_sdiff.mpr
              ⟨hD b hbU d (mem_newDeps.mp hd).1, (mem_newDeps.mp hd).2⟩
          have hB2 : B ∪ (newDeps D B b).toFinset ⊆ U := by
            intro x hx
            rcases Finset.mem_union.mp hx with hx | hx
            · exact hB hx
            · exact (Finset.mem_sdiff.mp (hsub hx)).1
          have hQ2 : ∀ x ∈ rest ++ newDeps D B b,
              x ∈ B ∪ (newDeps D B b).toFinset := by
            intro x hx
            rcases List.mem_append.mp hx with hx | hx
            · exact Finset.mem_union_left _
                (hQ x (List.mem_cons_of_mem b hx))
            · exact Finset.mem_union_right _ (List.mem_toFinset.mpr hx)
          have hle2 : (U \ (B ∪ (newDeps D B b).toFinset)).card +
              (rest ++ newDeps D B b).length ≤ n := by
            have e1 : U \ (B ∪ (newDeps D B b).toFinset) =
                (U \ B) \ (newDeps D B b).toFinset := by
              ext x
              simp only [Finset.mem_sdiff, Finset.mem_union]
              tauto
            have e2 : ((U \ B) \ (newDeps D B b).toFinset).card =
                (U \ B).card - (newDeps D B b).toFinset.card :=
              Finset.card_sdiff hsub
            have e3 : (newDeps D B b).toFinset.card =
                (newDeps D B b).length :=
              List.toFinset_card_of_nodup (newDeps_nodup D B b)
            have e4 : (newDeps D B b).toFinset.card ≤ (U \ B).card :=
              Finset.card_le_card hsub
            rw [e1, e2, List.length_append]
            simp only [List.length_cons] at hle
            omega
          obtain ⟨r2, hr2⟩ := ih _ _ hB2 hQ2 hle2
          refine ⟨(r2.1, r2.2.1, b :: r2.2.2), ?_⟩
          rw [closureLoopF_succ_cons, hr2]

/-- Everything collected is reachable from the queue (or was already there). -/
theorem closureLoopF_sound (D : String → List String) :
    ∀ (fuel : Nat) (B : Finset String) (Q : List String) S q tr,
      closureLoopF D fuel B Q = some (S, q, tr) →
      ∀ x ∈ S, x ∈ B ∨ ∃ rt ∈ Q, Relation.ReflTransGen (DepEdge D) rt x := by
  intro fuel
  induction fuel with
  | zero =>
      intro B Q S q tr h x hx
      cases Q with
      | nil => rw [closureLoopF_nil] at h; cases h; exact Or.inl hx
      | cons b rest => cases h
  | succ n ih =>
      intro B Q S q tr h x hx
      cases Q with
      | nil => rw [closureLoopF_nil] at h; cases h; exact Or.inl hx
      | cons b rest =>
          rw [closureLoopF_succ_cons] at h
          cases hrec : closureLoopF D n (B ∪ (newDeps D B b).toFinset)
              (rest ++ newDeps D B b) with
          | none => rw [hrec] at h; cases h
          | some r2 =>
              rw [hrec] at h
              obtain ⟨S2, q2, tr2⟩ := r2
              cases h
              rcases ih _ _ _ _ _ hrec x hx with hx2 | ⟨rt, hrt, hreach⟩
              · rcases Finset.mem_union.mp hx2 with hx3 | hx3
                · exact Or.inl hx3
                · refine Or.inr ⟨b, List.mem_cons_self b rest, ?_⟩
                  exact Relation.ReflTransGen.single
                    (mem_newDeps.mp (List.mem_toFinset.mp hx3)).1
              · rcases List.mem_append.mp hrt with hrt2 | hrt2
                · exact Or.inr ⟨rt, List.mem_cons_of_mem b hrt2, hreach⟩
                · refine Or.inr ⟨b, List.mem_cons_self b rest, ?_⟩
                  exact Relation.ReflTransGen.trans
                    (Relation.ReflTransGen.single (mem_newDeps.mp hrt2).1)
                    hreach

/-- The collected set only grows. -/
theorem closureLoopF_mono (D : String → List String) :
    ∀ (fuel : Nat) (B : Finset String) (Q : List String) S q tr,
      closureLoopF D fuel B Q = some (S, q, tr) → B ⊆ S := by
  intro fuel
  induction fuel with
  | zero =>
      intro B Q S q tr h
      cases Q with
      | nil => rw [closureLoopF_nil] at h; cases h; exact fun _ hx => hx
      | cons b rest => cases h
  | succ n ih =>
      intro B Q S q tr h
      cases Q with
      | nil => rw [closureLoopF_nil] at h; cases h; exact fun _ hx => hx
      | cons b rest =>
          rw [closureLoopF_succ_cons] at h
          cases hrec : closureLoopF D n (B ∪ (newDeps D B b).toFinset)
              (rest ++ newDeps D B b) with
          | none => rw [hrec] at h; cases h
          | some r2 =>
              rw [hrec] at h
              obtain ⟨S2, q2, tr2⟩ := r2
              cases h
              exact fun x hx =>
                ih _ _ _ _ _ hrec (Finset.mem_union_left _ hx)

/-- On exit the collected set is closed under dependencies, given the
invariant that every already-collected binary not still queued has had its
dependencies collected (true at the start: every root is queued). -/
theorem closureLoopF_closed (D : String → List String) :
    ∀ (fuel : Nat) (B : Finset String) (Q : List String) S q tr,
      closureLoopF D fuel B Q = some (S, q, tr) →
      (∀ c ∈ B, c ∉ Q → ∀ d ∈ D c, d ∈ B) →
      ∀ s ∈ S, ∀ d ∈ D s, d ∈ S := by
  intro fuel
  induction fuel with
  | zero =>
      intro B Q S q tr h hInv
      cases Q with
      | nil =>
          rw [closureLoopF_nil] at h; cases h
          exact fun s hs d hd => hInv s hs (List.not_mem_nil s) d hd
      | cons b rest => cases h
  | succ n ih =>
      intro B Q S q tr h hInv
      cases Q with
      | nil =>
          rw [closureLoopF_nil] at h; cases h
          exact fun s hs d hd => hInv s hs (List.not_mem_nil s) d hd
      | cons b rest =>
          rw [closureLoopF_succ_cons] at h
          cases hrec : closureLoopF D n (B ∪ (newDeps D B b).toFinset)
              (rest ++ newDeps D B b) with
          | none => rw [hrec] at h; cases h
          | some r2 =>
              rw [hrec] at h
              obtain ⟨S2, q2, tr2⟩ := r2
              cases h
              refine ih _ _ _ _ _ hrec ?_
              intro c hc hcq d hd
              rcases Finset.mem_union.mp hc with hcB | hcN
              · by_cases hcb : c = b
                · subst hcb
                  by_cases hdB : d ∈ B
                  · exact Finset.mem_union_left _ hdB
                  · exact Finset.mem_union_right _
                      (List.mem_toFinset.mpr (mem_newDeps.mpr ⟨hd, hdB⟩))
                · have hcrest : c ∉ rest := fun hr =>
                    hcq (List.mem_append.mpr (Or.inl hr))
                  have hcQ : c ∉ b :: rest := by
                    intro hcQ
                    rcases List.mem_cons.mp hcQ with h1 | h1
                    · exact hcb h1
                    · exact hcrest h1
                  exact Finset.mem_union_left _ (hInv c hcB hcQ d hd)
              · exact absurd
                  (List.mem_append.mpr (Or.inr (List.mem_toFinset.mp hcN)))
                  hcq

/-- Every binary in the processing trace was either still queued or not yet
collected when the loop state was `(B, Q)`. -/
theorem closureLoopF_trace_src (D : String → List String) :
    ∀ (fuel : Nat) (B : Finset String) (Q : List String) S q tr,
      closureLoopF D fuel B Q = some (S, q, tr) →
      ∀ t ∈ tr, t ∈ Q ∨ t ∉ B := by
  intro fuel
  induction fuel with
  | zero =>
      intro B Q S q tr h t ht
      cases Q with
      | nil => rw [closureLoopF_nil] at h; cases h; cases ht
      | cons b rest => cases h
  | succ n ih =>
      intro B Q S q tr h t ht
      cases Q with
      | nil => rw [closureLoopF_nil] at h; cases h; cases ht
      | cons b rest =>
          rw [closureLoopF_succ_cons] at h
          cases hrec : closureLoopF D n (B ∪ (newDeps D B b).toFinset)
              (rest ++ newDeps D B b) with
          | none => rw [hrec] at h; cases h
          | some r2 =>
              rw [hrec] at h
              obtain ⟨S2, q2, tr2⟩ := r2
              cases h
              rcases List.mem_cons.mp ht with rfl | ht2
              · exact Or.inl (List.mem_cons_self t rest)
              · rcases ih _ _ _ _ _ hrec t ht2 with htQ | htB
                · rcases List.mem_append.mp htQ with h1 | h1
                  · exact Or.inl (List.mem_cons_of_mem b h1)
                  · exact Or.inr (mem_newDeps.mp h1).2
                · exact Or.inr fun hB =>
                    htB (Finset.mem_union_left _ hB)

/-- With a duplicate-free queue whose members are all collected, no binary is
processed twice. -/
theorem closureLoopF_trace_nodup (D : String → List String) :
    ∀ (fuel : Nat) (B : Finset String) (Q : List String) S q tr,
      closureLoopF D fuel B Q = some (S, q, tr) →
      Q.Nodup → (∀ x ∈ Q, x ∈ B) → tr.Nodup := by
  intro fuel
  induction fuel with
  | zero =>
      intro B Q S q tr h hQn hQB
      cases Q with
      | nil => rw [closureLoopF_nil] at h; cases h; exact List.nodup_nil
      | cons b rest => cases h
  | succ n ih =>
      intro B Q S q tr h hQn hQB
      cases Q with
      | nil => rw [closureLoopF_nil] at h; cases h; exact List.nodup_nil
      | cons b rest =>
          rw [closureLoopF_succ_cons] at h
          cases hrec : closureLoopF D n (B ∪ (newDeps D B b).toFinset)
              (rest ++ newDeps D B b) with
          | none => rw [hrec] at h; cases h
          | some r2 =>
              rw [hrec] at h
              obtain ⟨S2, q2, tr2⟩ := r2
              cases h
              have hbrest : b ∉ rest := (List.nodup_cons.mp hQn).1
              have hrestn : rest.Nodup := (List.nodup_cons.mp hQn).2
              have hQn2 : (rest ++ newDeps D B b).Nodup := by
                rw [List.nodup_append]
                refine ⟨hrestn, newDeps_nodup D B b, ?_⟩
                intro x hx hxN
                exact (mem_newDeps.mp hxN).2
                  (hQB x (List.mem_cons_of_mem b hx))
              have hQB2 : ∀ x ∈ rest ++ newDeps D B b,
                  x ∈ B ∪ (newDeps D B b).toFinset := by
                intro x hx
                rcases List.mem_append.mp hx with hx | hx
                · exact Finset.mem_union_left _
                    (hQB x (List.mem_cons_of_mem b hx))
                · exact Finset.mem_union_right _ (List.mem_toFinset.mpr hx)
              refine List.nodup_cons.mpr ⟨?_, ih _ _ _ _ _ hrec hQn2 hQB2⟩
              intro hbtr
              rcases closureLoopF_trace_src D _ _ _ _ _ _ hrec b hbtr with
                hbQ | hbB
              · rcases List.mem_append.mp hbQ with h1 | h1
                · exact hbrest h1
                · exact (mem_newDeps.mp h1).2
                    (hQB b (List.mem_cons_self b rest))
              · exact hbB (Finset.mem_union_left _
                  (hQB b (List.mem_cons_self b rest)))

/-- Claim C1 (amended): seeded as in `main` with `binaries = set(args.binaries)`
and `queue = args.binaries`, the loop terminates on every finite dependency
graph (fuel `(U \ roots).card + |roots|` suffices, cycles included), its
result set contains exactly the roots and every library transitively reachable
from them through the `ldd` output, and — provided the user-supplied root list
has no duplicate entries — no binary is processed more than once.  (A root
supplied twice is processed once per occurrence; see the counterexample.) -/
theorem closure_resolves_transitive_deps (ldd : String → String)
    (U : Finset String) (roots : List String)
    (hD : ∀ b ∈ U, ∀ d ∈ GetSharedLibraryDependencies (ldd b), d ∈ U)
    (hroots : ∀ r ∈ roots, r ∈ U) :
    ∃ S q tr,
      closureLoopF (fun b => GetSharedLibraryDependencies (ldd b))
          ((U \ roots.toFinset).card + roots.length) roots.toFinset roots =
        some (S, q, tr) ∧
      (∀ x, x ∈ S ↔ ∃ rt ∈ roots,
          DepReaches (fun b => GetSharedLibraryDependencies (ldd b)) rt x) ∧
      (roots.Nodup → tr.Nodup) := by
  have hB : roots.toFinset ⊆ U := by
    intro x hx
    exact hroots x (List.mem_toFinset.mp hx)
  have hQ : ∀ x ∈ roots, x ∈ roots.toFinset := fun x hx =>
    List.mem_toFinset.mpr hx
  obtain ⟨r, hr⟩ := closureLoopF_terminates
    (fun b => GetSharedLibraryDependencies (ldd b)) U hD
    ((U \ roots.toFinset).card + roots.length) roots.toFinset roots
    hB hQ (le_refl _)
  obtain ⟨S, q, tr⟩ := r
  have hInv : ∀ c ∈ roots.toFinset, c ∉ roots →
      ∀ d ∈ GetSharedLibraryDependencies (ldd c), d ∈ roots.toFinset := by
    intro c hc hcr
    exact absurd (List.mem_toFinset.mp hc) hcr
  refine ⟨S, q, tr, hr, ?_, ?_⟩
  · intro x
    constructor
    · intro hx
      rcases closureLoopF_sound _ _ _ _ _ _ _ hr x hx with hx2 | hx2
      · exact ⟨x, List.mem_toFinset.mp hx2, Relation.ReflTransGen.refl⟩
      · exact hx2
    · rintro ⟨rt, hrt, hreach⟩
      unfold DepReaches at hreach
      induction hreach with
      | refl =>
          exact closureLoopF_mono _ _ _ _ _ _ _ hr
            (List.mem_toFinset.mpr hrt)
      | tail hsteps hedge ih2 =>
          exact closureLoopF_closed _ _ _ _ _ _ _ hr hInv _ ih2 _ hedge
  · intro hnodup
    exact closureLoopF_trace_nodup _ _ _ _ _ _ _ hr hnodup hQ

/-- Witness for C1 (amended): a two-binary dependency cycle (`a` and `b` list
each other in `ldd` output) started from root `a`: the loop terminates and
collects exactly `a` and `b`, each processed once. -/
theorem closure_resolves_transitive_deps_witness :
    (∀ b ∈ ({"a", "b"} : Finset String),
      ∀ d ∈ GetSharedLibraryDependencies
        ((fun s => if s = "a" then "\tlibx.so => b (0x1)\n"
          else if s = "b" then "\tlibx.so => a (0x1)\n" else "") b),
        d ∈ ({"a", "b"} : Finset String)) ∧
    (∀ r ∈ ["a"], r ∈ ({"a", "b"} : Finset String)) ∧
    (∃ S q tr,
      closureLoopF (fun b => GetSharedLibraryDependencies
          ((fun s => if s = "a" then "\tlibx.so => b (0x1)\n"
            else if s = "b" then "\tlibx.so => a (0x1)\n" else "") b))
          ((({"a", "b"} : Finset String) \ (["a"] : List String).toFinset).card +
            (["a"] : List String).length)
          (["a"] : List String).toFinset ["a"] = some (S, q, tr) ∧
      (∀ x, x ∈ S ↔ ∃ rt ∈ ["a"],
          DepReaches (fun b => GetSharedLibraryDependencies
            ((fun s => if s = "a" then "\tlibx.so => b (0x1)\n"
              else if s = "b" then "\tlibx.so => a (0x1)\n" else "") b)) rt x) ∧
      ((["a"] : List String).Nodup → tr.Nodup)) := by
  refine ⟨by decide, by decide, ?_⟩
  exact closure_resolves_transitive_deps _ ({"a", "b"} : Finset String) ["a"]
    (by decide) (by decide)

/-- Counterexample to C1 as stated: the loop is seeded with the user-supplied
list itself, so a root listed twice (`args.binaries = [a, a]`, a legal command
line) is dequeued and handed to `ldd` twice — the processing trace is
`[a, a]`, not duplicate-free.  The result set is nevertheless correct. -/
theorem closure_dup_root_processed_twice :
    closureLoopF (fun b => GetSharedLibraryDependencies ((fun _ => "") b)) 2
        (["a", "a"] : List String).toFinset ["a", "a"] =
      some ((["a", "a"] : List String).toFinset, [], ["a", "a"]) ∧
    ¬ (["a", "a"] : List String).Nodup := by
  exact ⟨by decide, by decide⟩

/-- Claim C2 (amended): the queue is not an independent copy of the caller's
root list; whenever the loop terminates the list named `args.binaries` has
been drained to `[]`, so for every non-empty root list it differs from its
initial value. -/
theorem argsBinaries_mutated_to_empty (D : String → List String) (fuel : Nat)
    (roots : List String) (hne : roots ≠ []) :
    (∀ q, argsBinariesAfterLoop D fuel roots = some q → q = []) ∧
    argsBinariesAfterLoop D fuel roots ≠ some roots := by
  have h1 : ∀ q, argsBinariesAfterLoop D fuel roots = some q → q = [] := by
    intro q hq
    unfold argsBinariesAfterLoop at hq
    cases hr : closureLoopF D fuel roots.toFinset roots with
    | none => rw [hr] at hq; cases hq
    | some r =>
        rw [hr] at hq
        simp only [Option.map_some'] at hq
        cases hq
        exact closureLoopF_queue_empty D fuel _ _ r hr
  refine ⟨h1, ?_⟩
  intro h
  exact hne (h1 roots h)

/-- Witness for C2 (amended): with root list `[a]` and no dependencies, after
the loop `args.binaries` is `[]`, not `[a]`. -/
theorem argsBinaries_mutated_to_empty_witness :
    (["a"] : List String) ≠ [] ∧
    argsBinariesAfterLoop (fun _ => []) 1 ["a"] ≠ some ["a"] := by
  refine ⟨by decide, ?_⟩
  exact (argsBinaries_mutated_to_empty (fun _ => []) 1 ["a"] (by decide)).2

/-- Counterexample to C2 as stated: the claim says the traversal leaves
`args.binaries` equal to its initial value; with roots `[a]` (and a leaf
dependency graph) the loop leaves it `[]`. -/
theorem argsBinaries_not_preserved_counterexample :
    argsBinariesAfterLoop (fun b => GetSharedLibraryDependencies
        ((fun _ => "") b)) 1 ["a"] = some [] ∧
    some ([] : List String) ≠ some ["a"] := by
  exact ⟨by decide, by decide⟩

/-- Claim C3: whenever the first line of the captured output matches
`MODULE <os> <arch> <BUILD_ID_HEX> <MODULE_NAME>`, the writer succeeds on any
prior filesystem state (so an already-existing directory or file is no
error), creates `symbols_root/MODULE_NAME/BUILD_ID_HEX` together with every
intermediate directory, writes the captured text verbatim to
`MODULE_NAME.sym` inside it — overwriting whatever `fs` held there — and
touches no other file. -/
theorem writeSyms_spec (symbolDir syms : String) (fs : FS)
    (buildId modName : String)
    (hparse : matchModuleLine syms.data = some (buildId, modName)) :
    ∃ fs1, writeSyms symbolDir syms fs = some (fs1, buildId, modName) ∧
      fs1.dirs (pathJoin (pathJoin symbolDir modName) buildId) = true ∧
      (∀ d, strStartsWith (pathJoin (pathJoin symbolDir modName) buildId)
          (d ++ "/") = true → fs1.dirs d = true) ∧
      fs1.files (pathJoin (pathJoin (pathJoin symbolDir modName) buildId)
          (modName ++ ".sym")) = some syms ∧
      (∀ p, p ≠ pathJoin (pathJoin (pathJoin symbolDir modName) buildId)
          (modName ++ ".sym") → fs1.files p = fs.files p) := by
  have h : writeSyms symbolDir syms fs =
      some (fsWrite
          (pathJoin (pathJoin (pathJoin symbolDir modName) buildId)
            (modName ++ ".sym")) syms
          (makedirs (pathJoin (pathJoin symbolDir modName) buildId) fs),
        buildId, modName) := by
    unfold writeSyms
    rw [hparse]
  refine ⟨_, h, ?_, ?_, ?_, ?_⟩
  · simp [fsWrite, makedirs]
  · intro d hd
    simp [fsWrite, makedirs, hd]
  · simp [fsWrite, makedirs]
  · intro p hp
    simp [fsWrite, makedirs, hp]

/-- Witness for C3: the spec example.  Output beginning
`MODULE Linux x86_64 ABCDEF1234 libfoo.so` is written to
`symbols_dir/libfoo.so/ABCDEF1234/libfoo.so.sym` verbatim, overwriting stale
content, and the intermediate directories exist afterwards. -/
theorem writeSyms_spec_witness :
    matchModuleLine
        ("MODULE Linux x86_64 ABCDEF1234 libfoo.so\nFUNC 1000 8 0 main\n").data =
      some ("ABCDEF1234", "libfoo.so") ∧
    pathJoin (pathJoin (pathJoin "symbols_dir" "libfoo.so") "ABCDEF1234")
        ("libfoo.so" ++ ".sym") = "symbols_dir/libfoo.so/ABCDEF1234/libfoo.so.sym" ∧
    ∃ fs1, writeSyms "symbols_dir"
          "MODULE Linux x86_64 ABCDEF1234 libfoo.so\nFUNC 1000 8 0 main\n"
          ⟨fun _ => false,
           fun q => if q == "symbols_dir/libfoo.so/ABCDEF1234/libfoo.so.sym"
             then some "stale" else none⟩ =
        some (fs1, "ABCDEF1234", "libfoo.so") ∧
      fs1.dirs (pathJoin (pathJoin "symbols_dir" "libfoo.so") "ABCDEF1234") = true ∧
      fs1.files (pathJoin (pathJoin (pathJoin "symbols_dir" "libfoo.so")
          "ABCDEF1234") ("libfoo.so" ++ ".sym")) =
        some "MODULE Linux x86_64 ABCDEF1234 libfoo.so\nFUNC 1000 8 0 main\n" := by
  refine ⟨by decide, by decide, ?_⟩
  obtain ⟨fs1, h1, h2, _, h4, _⟩ := writeSyms_spec "symbols_dir"
    "MODULE Linux x86_64 ABCDEF1234 libfoo.so\nFUNC 1000 8 0 main\n"
    ⟨fun _ => false,
     fun q => if q == "symbols_dir/libfoo.so/ABCDEF1234/libfoo.so.sym"
       then some "stale" else none⟩
    "ABCDEF1234" "libfoo.so" (by decide)
  exact ⟨fs1, h1, h2, h4⟩

/-- Claim C6: given that the fourth space-separated field of the unstrip
output exists, `GetDebugFile` returns Python `None` exactly when that field is
one of the sentinels `-` or `.`, and returns the field's value otherwise. -/
theorem getDebugFile_sentinel_spec (out f4 : String)
    (h : (unstripFields out).get? 3 = some f4) :
    (GetDebugFile out = some none ↔ (f4 = "-" ∨ f4 = ".")) ∧
    (f4 ≠ "-" → f4 ≠ "." → GetDebugFile out = some (some f4)) := by
  unfold GetDebugFile
  rw [h]
  constructor
  · by_cases hs : f4 = "-" ∨ f4 = "."
    · simp [hs]
    · simp [hs]
  · intro h1 h2
    have hs : ¬ (f4 = "-" ∨ f4 = ".") := by
      rintro (h3 | h3) <;> [exact h1 h3; exact h2 h3]
    simp [hs]

/-- Witness for C6: a concrete unstrip output whose fourth field is `-`, and
one whose fourth field is a path. -/
theorem getDebugFile_sentinel_spec_witness :
    ((unstripFields "0x1+0x2 ab12 . - vulkaninfo").get? 3 =
        some "-") ∧
    GetDebugFile "0x1+0x2 ab12 . - vulkaninfo" = some none ∧
    ((unstripFields "0x1+0x2 ab12 . /usr/lib/debug/x.so libx").get? 3 =
        some "/usr/lib/debug/x.so") ∧
    GetDebugFile "0x1+0x2 ab12 . /usr/lib/debug/x.so libx" =
        some (some "/usr/lib/debug/x.so") := by
  refine ⟨by decide, ?_, by decide, ?_⟩
  · exact (getDebugFile_sentinel_spec _ _ (by decide)).1.mpr (Or.inl rfl)
  · exact (getDebugFile_sentinel_spec _ _ (by decide)).2 (by decide) (by decide)

/-- Claim C10: `unstrip[3]` is read with no bounds guard: with at least four
space-separated fields the access succeeds and `GetDebugFile` returns a value,
and with fewer than four fields it raises an uncaught `IndexError` (modelled
as `none`) instead of returning a value. -/
theorem getDebugFile_index_bounds (out : String) :
    (4 ≤ (unstripFields out).length → ∃ v, GetDebugFile out = some v) ∧
    ((unstripFields out).length < 4 → GetDebugFile out = none) := by
  constructor
  · intro hlen
    unfold GetDebugFile
    cases hg : (unstripFields out).get? 3 with
    | none =>
        have := List.get?_eq_none.mp hg
        omega
    | some f => exact ⟨if f = "-" ∨ f = "." then none else some f, rfl⟩
  · intro hlen
    unfold GetDebugFile
    rw [List.get?_eq_none.mpr (by omega)]

/-- Witness for C10: a three-field output raises (`none`); a four-field output
returns a value. -/
theorem getDebugFile_index_bounds_witness :
    (unstripFields "0x1+0x2 ab12 exe").length < 4 ∧
    GetDebugFile "0x1+0x2 ab12 exe" = none ∧
    4 ≤ (unstripFields "0x1+0x2 ab12 . spam").length ∧
    (∃ v, GetDebugFile "0x1+0x2 ab12 . spam" = some v) := by
  refine ⟨by decide, ?_, by decide, ?_⟩
  · exact (getDebugFile_index_bounds _).2 (by decide)
  · exact (getDebugFile_index_bounds _).1 (by decide)

theorem runBinaries_nil (w : World) (symbolDir : String) (fs : FS) :
    runBinaries w symbolDir [] fs = ⟨fs, true, [], []⟩ := rfl

theorem runBinaries_cons (w : World) (symbolDir b : String)
    (rest : List String) (fs : FS) :
    runBinaries w symbolDir (b :: rest) fs =
      match (GenerateSymbols w symbolDir b fs).newFs with
      | none => ⟨fs, false, (GenerateSymbols w symbolDir b fs).spawned,
          ("binary: " ++ b) :: (GenerateSymbols w symbolDir b fs).console⟩
      | some fs1 =>
          ⟨(runBinaries w symbolDir rest fs1).fs,
            (runBinaries w symbolDir rest fs1).ok,
            (GenerateSymbols w symbolDir b fs).spawned ++
              (runBinaries w symbolDir rest fs1).spawned,
            ("binary: " ++ b) :: ((GenerateSymbols w symbolDir b fs).console ++
              [""] ++ (runBinaries w symbolDir rest fs1).console)⟩ := rfl

/-- Claim C7: when the `dump_syms` output for binary `b` has no matching
MODULE header line, processing `b` raises an uncaught error: the whole run
fails (`ok = false`), the filesystem is exactly what it was after the
binaries before `b` (no symbol file for `b`), no later binary is processed,
and `GenerateSymbols` on `b` writes nothing whatever the state. -/
theorem moduleParse_failure_aborts_run (w : World) (symbolDir : String)
    (bs1 bs2 : List String) (b : String) (fs : FS) (dOpt : Option String)
    (hdbg : GetDebugFile (w.unstrip b) = some dOpt)
    (hparse : matchModuleLine (w.dumpSyms
        (dumpCmdFor (GetSoName (w.readelf b) b) b
          (usableDebugFile w.pathExists dOpt))).data = none)
    (hok : (runBinaries w symbolDir bs1 fs).ok = true) :
    (runBinaries w symbolDir (bs1 ++ b :: bs2) fs).ok = false ∧
    (runBinaries w symbolDir (bs1 ++ b :: bs2) fs).fs =
      (runBinaries w symbolDir bs1 fs).fs ∧
    ∀ fsx, (GenerateSymbols w symbolDir b fsx).newFs = none := by
  have hcrash : ∀ fsx, (GenerateSymbols w symbolDir b fsx).newFs = none := by
    intro fsx
    simp only [GenerateSymbols, hdbg, writeSyms, hparse]
  have main : ∀ (l : List String) (fs0 : FS),
      (runBinaries w symbolDir l fs0).ok = true →
      (runBinaries w symbolDir (l ++ b :: bs2) fs0).ok = false ∧
      (runBinaries w symbolDir (l ++ b :: bs2) fs0).fs =
        (runBinaries w symbolDir l fs0).fs := by
    intro l
    induction l with
    | nil =>
        intro fs0 _
        rw [List.nil_append, runBinaries_cons, hcrash fs0]
        exact ⟨rfl, rfl⟩
    | cons a rest ih =>
        intro fs0 hok0
        rw [runBinaries_cons] at hok0
        rw [List.cons_append, runBinaries_cons, runBinaries_cons]
        cases hg : (GenerateSymbols w symbolDir a fs0).newFs with
        | none => rw [hg] at hok0; cases hok0
        | some fs1 =>
            rw [hg] at hok0
            exact ih fs1 hok0
  exact ⟨(main bs1 fs hok).1, (main bs1 fs hok).2, hcrash⟩

/-- Witness for C7: a world whose `dump_syms` output is empty (no MODULE
header): the run on `[b]` fails and writes nothing. -/
theorem moduleParse_failure_aborts_run_witness :
    GetDebugFile ((⟨fun _ => "", fun _ => "a b c -", fun _ => "",
        fun _ => "", fun _ => false⟩ : World).unstrip "x") = some none ∧
    matchModuleLine ((⟨fun _ => "", fun _ => "a b c -", fun _ => "",
        fun _ => "", fun _ => false⟩ : World).dumpSyms
        (dumpCmdFor (GetSoName ((⟨fun _ => "", fun _ => "a b c -",
            fun _ => "", fun _ => "", fun _ => false⟩ : World).readelf "x") "x")
          "x" (usableDebugFile (⟨fun _ => "", fun _ => "a b c -", fun _ => "",
            fun _ => "", fun _ => false⟩ : World).pathExists none))).data =
      none ∧
    (runBinaries (⟨fun _ => "", fun _ => "a b c -", fun _ => "", fun _ => "",
        fun _ => false⟩ : World) "symbols" ([] ++ "x" :: [])
        ⟨fun _ => false, fun _ => none⟩).ok = false := by
  refine ⟨by decide, by decide, ?_⟩
  exact (moduleParse_failure_aborts_run _ "symbols" [] [] "x"
    ⟨fun _ => false, fun _ => none⟩ none (by decide) (by decide) rfl).1

/-- Claim C8: with `--clear` set, everything at or under the symbols root is
gone from the state the writer phase starts from (and clearing an absent tree
is a no-op rather than an error); with the flag unset nothing is deleted. -/
theorem clear_flag_spec (clear : Bool) (dir : String) (fs : FS) :
    (clear = true → ∀ p, underDir dir p = true →
      (fsAfterSetup clear dir fs).files p = none ∧
      (fsAfterSetup clear dir fs).dirs p = false) ∧
    (clear = true →
      (∀ p, underDir dir p = true → fs.files p = none ∧ fs.dirs p = false) →
      fsAfterSetup clear dir fs = fs) ∧
    (clear = false → fsAfterSetup clear dir fs = fs) := by
  refine ⟨?_, ?_, ?_⟩
  · rintro rfl p hp
    constructor
    · simp [fsAfterSetup, rmtree, hp]
    · simp [fsAfterSetup, rmtree, hp]
  · rintro rfl habsent
    show rmtree dir fs = fs
    ext q
    · cases hq : underDir dir q with
      | false => simp [rmtree, hq]
      | true => simp [rmtree, hq, (habsent q hq).2]
    · cases hq : underDir dir q with
      | false => simp [rmtree, hq]
      | true => simp [rmtree, hq, (habsent q hq).1]
  · rintro rfl
    simp [fsAfterSetup]

/-- Witness for C8: a stale symbol file under `symbols` disappears when
`--clear` is set, and the state is untouched when it is not. -/
theorem clear_flag_spec_witness :
    underDir "symbols" "symbols/a/b.sym" = true ∧
    (fsAfterSetup true "symbols"
        ⟨fun _ => false,
         fun q => if q == "symbols/a/b.sym" then some "x" else none⟩).files
      "symbols/a/b.sym" = none ∧
    fsAfterSetup false "symbols"
        ⟨fun _ => false,
         fun q => if q == "symbols/a/b.sym" then some "x" else none⟩ =
      ⟨fun _ => false,
       fun q => if q == "symbols/a/b.sym" then some "x" else none⟩ := by
  refine ⟨by decide, ?_, ?_⟩
  · exact ((clear_flag_spec true "symbols" _).1 rfl "symbols/a/b.sym"
      (by decide)).1
  · exact (clear_flag_spec false "symbols" _).2.2 rfl

/-- Claim C9: on a platform whose identifier does not start with `linux`,
`main` prints the unsupported-platform message and returns 1 with no external
process spawned and the filesystem untouched; on Linux every run that
returns cleanly returns 0 (any failure is an uncaught exception, modelled as
`exitCode = none`). -/
theorem platform_gate_spec (platform : String) (w : World) (clear : Bool)
    (symbolsDir : String) (roots : List String) (fuel : Nat) (fs : FS) :
    (strStartsWith platform "linux" = false →
      pyMain platform w clear symbolsDir roots fuel fs =
        some ⟨some 1, fs, [], ["Currently only supported on Linux."]⟩) ∧
    (strStartsWith platform "linux" = true →
      ∀ res, pyMain platform w clear symbolsDir roots fuel fs = some res →
        res.exitCode = some 0 ∨ res.exitCode = none) := by
  constructor
  · intro h
    simp [pyMain, h]
  · intro h res hres
    simp only [pyMain, h, Bool.not_true, Bool.false_eq_true, if_false] at hres
    cases hclo : closureLoopF
        (fun b => GetSharedLibraryDependencies (w.ldd b)) fuel
        roots.toFinset roots with
    | none => rw [hclo] at hres; cases hres
    | some r =>
        obtain ⟨binaries, q, processed⟩ := r
        rw [hclo] at hres
        simp only [Option.some.injEq] at hres
        subst hres
        cases hok : (runBinaries w symbolsDir (binaries.sort (· ≤ ·))
            (fsAfterSetup clear symbolsDir fs)).ok with
        | true => exact Or.inl (by simp [hok])
        | false => exact Or.inr (by simp [hok])

/-- Witness for C9: a `win32` invocation returns 1, prints the message, and
spawns nothing. -/
theorem platform_gate_spec_witness :
    strStartsWith "win32" "linux" = false ∧
    pyMain "win32"
        ⟨fun _ => "", fun _ => "", fun _ => "", fun _ => "", fun _ => false⟩
        false "symbols" ["a"] 1 ⟨fun _ => false, fun _ => none⟩ =
      some ⟨some 1, ⟨fun _ => false, fun _ => none⟩, [],
        ["Currently only supported on Linux."]⟩ := by
  refine ⟨by decide, ?_⟩
  exact (platform_gate_spec "win32"
    ⟨fun _ => "", fun _ => "", fun _ => "", fun _ => "", fun _ => false⟩
    false "symbols" ["a"] 1 ⟨fun _ => false, fun _ => none⟩).1 (by decide)
